import Mathlib

/-!
Verification development for the raycast2api relay.

The definitions below are a shallow embedding of the TypeScript sources
(`src/handlers/chat.ts`, `src/utils.ts`, `src/config.ts`): JavaScript strings
become `String`/`List Char`, byte arrays become `List Nat` with every byte
kept below 256 explicitly, and the platform primitives used by the code
(TextEncoder, SHA-256 / HMAC-SHA256 from `crypto.subtle`, `JSON.parse`) are
modelled executably.  Stateful streaming code becomes an explicit state
machine over a state record, with the downstream write channel modelled as a
success oracle indexed by write attempt.
-/

/-- The whitespace class used by JavaScript `String.prototype.trim`:
ECMA-262 WhiteSpace and LineTerminator, i.e. tab, line feed, vertical
tab, form feed, carriage return, space, no-break space (U+00A0), the
Ogham space mark (U+1680), the Zs spaces U+2000 through U+200A, the
line and paragraph separators (U+2028, U+2029), the narrow no-break
space (U+202F), the medium mathematical space (U+205F), the ideographic
space (U+3000), and the zero-width no-break space (U+FEFF). -/
def jsWhitespace (c : Char) : Bool :=
  let n := c.toNat
  (9 ≤ n && n ≤ 13) || n = 32 || n = 160 || n = 5760 ||
    (8192 ≤ n && n ≤ 8202) || n = 8232 || n = 8233 || n = 8239 ||
    n = 8287 || n = 12288 || n = 65279

/-- Model of JavaScript `trim()`: drop the whitespace run at both ends. -/
def trimChars (l : List Char) : List Char :=
  ((l.dropWhile jsWhitespace).reverse.dropWhile jsWhitespace).reverse

/-- Model of JavaScript `split("\n")` on the character list of a string:
the segments between newline characters, in order (a trailing newline
yields a final empty segment, exactly as in JavaScript). -/
def splitLines : List Char → List (List Char)
  | [] => [[]]
  | c :: rest =>
    if c = '\n' then [] :: splitLines rest
    else
      match splitLines rest with
      | [] => [[c]]
      | l :: ls => (c :: l) :: ls

/-- Model of JavaScript `Array.prototype.join(sep)` on a list of strings. -/
def joinWith (sep : String) : List String → String
  | [] => ""
  | [s] => s
  | s :: rest => s ++ sep ++ joinWith sep rest

/-- One lowercase hexadecimal digit (0-9, a-f). -/
def hexDigit (n : Nat) : Char :=
  if n < 10 then Char.ofNat (48 + n) else Char.ofNat (87 + n)

/-- Digit extraction loop for `natHexDigits`, structurally recursive on a
fuel bound so that it reduces inside the kernel. -/
def natHexDigitsAux : Nat → Nat → List Char
  | 0, _ => []
  | fuel + 1, n =>
    if n < 16 then [hexDigit n]
    else natHexDigitsAux fuel (n / 16) ++ [hexDigit (n % 16)]

/-- Model of JavaScript `Number.prototype.toString(16)` on a natural
number: most significant digit first, no leading zeros, lowercase. -/
def natHexDigits (n : Nat) : List Char :=
  natHexDigitsAux (n + 1) n

/-- Model of JavaScript `.padStart(2, "0")` on a digit list. -/
def padStartTwo (s : List Char) : List Char :=
  if s.length < 2 then List.replicate (2 - s.length) '0' ++ s else s

/-- `src/utils.ts` renders a byte array as hex with
`Array.from(bytes).map(byte => byte.toString(16).padStart(2, "0")).join("")`. -/
def jsHexOfBytes (bs : List Nat) : String :=
  String.mk (bs.flatMap (fun b => padStartTwo (natHexDigits b)))

/-- The spec's words: render each byte as two lowercase hex digits. -/
def hexPair (b : Nat) : List Char :=
  [hexDigit (b / 16), hexDigit (b % 16)]

/-- The spec's words: lowercase-hex rendering of a byte sequence. -/
def lowercaseHex (bs : List Nat) : String :=
  String.mk (bs.flatMap hexPair)

/-- UTF-8 encoding of one Unicode scalar value (model of the platform
`TextEncoder` at the level of a single character). -/
def utf8Char (n : Nat) : List Nat :=
  if n < 128 then [n]
  else if n < 2048 then [192 + n / 64, 128 + n % 64]
  else if n < 65536 then [224 + n / 4096, 128 + n / 64 % 64, 128 + n % 64]
  else [240 + n / 262144, 128 + n / 4096 % 64, 128 + n / 64 % 64, 128 + n % 64]

/-- Model of the platform `TextEncoder().encode`: UTF-8 bytes of a string. -/
def utf8Encode (s : String) : List Nat :=
  s.data.flatMap (fun c => utf8Char c.toNat)

/-- Truncation to a 32-bit word. -/
def w32 (n : Nat) : Nat := n % 4294967296

/-- 32-bit right rotation (the input is assumed to be a 32-bit word). -/
def rotr32 (n x : Nat) : Nat :=
  w32 (x / 2 ^ n + x % 2 ^ n * 2 ^ (32 - n))

/-- SHA-256 round constants (FIPS 180-4). -/
def sha256K : List Nat :=
  [
   1116352408, 1899447441, 3049323471, 3921009573,
   961987163, 1508970993, 2453635748, 2870763221,
   3624381080, 310598401, 607225278, 1426881987,
   1925078388, 2162078206, 2614888103, 3248222580,
   3835390401, 4022224774, 264347078, 604807628,
   770255983, 1249150122, 1555081692, 1996064986,
   2554220882, 2821834349, 2952996808, 3210313671,
   3336571891, 3584528711, 113926993, 338241895,
   666307205, 773529912, 1294757372, 1396182291,
   1695183700, 1986661051, 2177026350, 2456956037,
   2730485921, 2820302411, 3259730800, 3345764771,
   3516065817, 3600352804, 4094571909, 275423344,
   430227734, 506948616, 659060556, 883997877,
   958139571, 1322822218, 1537002063, 1747873779,
   1955562222, 2024104815, 2227730452, 2361852424,
   2428436474, 2756734187, 3204031479, 3329325298]

/-- SHA-256 initial hash value (FIPS 180-4). -/
def sha256H0 : List Nat :=
  [
   1779033703, 3144134277, 1013904242, 2773480762,
   1359893119, 2600822924, 528734635, 1541459225]

/-- A natural number as `k` big-endian bytes. -/
def natToBytesBE : Nat → Nat → List Nat
  | 0, _ => []
  | k + 1, n => natToBytesBE k (n / 256) ++ [n % 256]

/-- SHA-256 message padding: append `0x80`, zero bytes up to 56 mod 64,
then the bit length as 8 big-endian bytes. -/
def sha256Pad (msg : List Nat) : List Nat :=
  msg ++ [128] ++ List.replicate ((119 - msg.length % 64) % 64) 0
      ++ natToBytesBE 8 (8 * msg.length)

/-- Group bytes into big-endian 32-bit words. -/
def bytesToWords : List Nat → List Nat
  | b0 :: b1 :: b2 :: b3 :: rest =>
    (b0 * 16777216 + b1 * 65536 + b2 * 256 + b3) :: bytesToWords rest
  | _ => []

/-- Blocking loop for `words16`, structurally recursive on a fuel bound
so that it reduces inside the kernel. -/
def words16Aux : Nat → List Nat → List (List Nat)
  | 0, _ => []
  | _, [] => []
  | fuel + 1, w :: rest => (w :: rest).take 16 :: words16Aux fuel ((w :: rest).drop 16)

/-- Group a word list into 16-word blocks. -/
def words16 (ws : List Nat) : List (List Nat) :=
  words16Aux ws.length ws

/-- Extend a 16-word block to the 64-word SHA-256 message schedule:
each step appends `σ1 w[t-2] + w[t-7] + σ0 w[t-15] + w[t-16]` (mod 2^32). -/
def sha256Schedule : Nat → List Nat → List Nat
  | 0, ws => ws
  | n + 1, ws =>
    let t := ws.length
    let s0 := Nat.xor (Nat.xor (rotr32 7 (ws.getD (t - 15) 0)) (rotr32 18 (ws.getD (t - 15) 0)))
                (ws.getD (t - 15) 0 / 2 ^ 3)
    let s1 := Nat.xor (Nat.xor (rotr32 17 (ws.getD (t - 2) 0)) (rotr32 19 (ws.getD (t - 2) 0)))
                (ws.getD (t - 2) 0 / 2 ^ 10)
    sha256Schedule n (ws ++ [w32 (s1 + ws.getD (t - 7) 0 + s0 + ws.getD (t - 16) 0)])

/-- One SHA-256 compression round on the eight-register state. -/
def sha256Round (st : Nat × Nat × Nat × Nat × Nat × Nat × Nat × Nat) (kw : Nat × Nat) :
    Nat × Nat × Nat × Nat × Nat × Nat × Nat × Nat :=
  match st, kw with
  | (a, b, c, d, e, f, g, h), (kt, wt) =>
    let S1 := Nat.xor (Nat.xor (rotr32 6 e) (rotr32 11 e)) (rotr32 25 e)
    let ch := Nat.xor (Nat.land e f) (Nat.land (Nat.xor e 4294967295) g)
    let t1 := w32 (h + S1 + ch + kt + wt)
    let S0 := Nat.xor (Nat.xor (rotr32 2 a) (rotr32 13 a)) (rotr32 22 a)
    let maj := Nat.xor (Nat.xor (Nat.land a b) (Nat.land a c)) (Nat.land b c)
    let t2 := w32 (S0 + maj)
    (w32 (t1 + t2), a, b, c, w32 (d + t1), e, f, g)

/-- SHA-256 compression of one 16-word block into the running hash. -/
def sha256Compress (h : List Nat) (block : List Nat) : List Nat :=
  let ws := sha256Schedule 48 block
  let init := (h.getD 0 0, h.getD 1 0, h.getD 2 0, h.getD 3 0,
               h.getD 4 0, h.getD 5 0, h.getD 6 0, h.getD 7 0)
  match (sha256K.zip ws).foldl sha256Round init with
  | (a, b, c, d, e, f, g, hh) =>
    [w32 (h.getD 0 0 + a), w32 (h.getD 1 0 + b), w32 (h.getD 2 0 + c),
     w32 (h.getD 3 0 + d), w32 (h.getD 4 0 + e), w32 (h.getD 5 0 + f),
     w32 (h.getD 6 0 + g), w32 (h.getD 7 0 + hh)]

/-- A 32-bit word as four big-endian bytes. -/
def wordBytesBE (w : Nat) : List Nat :=
  [w / 16777216 % 256, w / 65536 % 256, w / 256 % 256, w % 256]

/-- SHA-256 of a byte sequence (model of `crypto.subtle.digest("SHA-256", ...)`,
FIPS 180-4). -/
def sha256Bytes (msg : List Nat) : List Nat :=
  ((words16 (bytesToWords (sha256Pad msg))).foldl sha256Compress sha256H0).flatMap wordBytesBE

/-- HMAC-SHA256 (model of `crypto.subtle.sign("HMAC", ...)` with an
SHA-256 hash, RFC 2104): keys longer than the 64-byte block are hashed,
shorter keys are zero-padded to the block size. -/
def hmacSha256 (key msg : List Nat) : List Nat :=
  let k0 := if 64 < key.length then sha256Bytes key else key
  let kp := k0 ++ List.replicate (64 - k0.length) 0
  sha256Bytes (kp.map (fun b => Nat.xor b 92) ++ sha256Bytes (kp.map (fun b => Nat.xor b 54) ++ msg))

/-- `src/utils.ts` `rot13rot5Encode`, per character: ROT13 on the char
codes 65-90 and 97-122, ROT5 on 48-57, everything else unchanged. -/
def rotCharCode (char : Char) : Char :=
  let charCode := char.toNat
  if 65 ≤ charCode ∧ charCode ≤ 90 then Char.ofNat ((charCode - 65 + 13) % 26 + 65)
  else if 97 ≤ charCode ∧ charCode ≤ 122 then Char.ofNat ((charCode - 97 + 13) % 26 + 97)
  else if 48 ≤ charCode ∧ charCode ≤ 57 then Char.ofNat ((charCode - 48 + 5) % 10 + 48)
  else char

/-- `src/utils.ts` `rot13rot5Encode`: `str.split("").map(...).join("")`. -/
def rot13rot5Encode (str : String) : String :=
  String.mk (str.data.map rotCharCode)

/-- The spec's words: the fixed substitution, ROT13 on letters A-Z and
a-z, ROT5 on digits 0-9, all other characters unchanged. -/
def specRotChar (c : Char) : Char :=
  if 'A'.toNat ≤ c.toNat ∧ c.toNat ≤ 'Z'.toNat then
    Char.ofNat ('A'.toNat + (c.toNat - 'A'.toNat + 13) % 26)
  else if 'a'.toNat ≤ c.toNat ∧ c.toNat ≤ 'z'.toNat then
    Char.ofNat ('a'.toNat + (c.toNat - 'a'.toNat + 13) % 26)
  else if '0'.toNat ≤ c.toNat ∧ c.toNat ≤ '9'.toNat then
    Char.ofNat ('0'.toNat + (c.toNat - '0'.toNat + 5) % 10)
  else c

/-- The spec's substitution applied to a whole string. -/
def specRot (s : String) : String :=
  String.mk (s.data.map specRotChar)

/-- The hardcoded default signing secret from `src/utils.ts`. -/
def defaultSignatureSecret : String :=
  "6bc455473576ce2cd6f70426caff867aabbe3f7291c1a79681af5e8ce0ca1408"

/-- `src/utils.ts` `calculateSignatureV2`.  A missing secret is modelled
as `none`; the JavaScript truthiness test `if (!signatureSecret)` also
replaces an empty-string secret with the default. -/
def calculateSignatureV2 (timestamp deviceId bodyStr : String)
    (signatureSecret : Option String) : String :=
  let secret := match signatureSecret with
    | none => defaultSignatureSecret
    | some s => if s = "" then defaultSignatureSecret else s
  let hashHex := jsHexOfBytes (sha256Bytes (utf8Encode bodyStr))
  let message := joinWith "." ([timestamp, deviceId, hashHex].map rot13rot5Encode)
  jsHexOfBytes (hmacSha256 (utf8Encode secret) (utf8Encode message))

/-- The signature as the spec describes it: lowercase-hex HMAC-SHA256,
keyed with the UTF-8 secret, over `rot t ++ "." ++ rot d ++ "." ++ rot h`
where `h` is the lowercase-hex SHA-256 digest of the body. -/
def specSign (t d B S : String) : String :=
  lowercaseHex (hmacSha256 (utf8Encode S)
    (utf8Encode (specRot t ++ "." ++ specRot d ++ "." ++
      specRot (lowercaseHex (sha256Bytes (utf8Encode B))))))

/-- JSON values as produced by `JSON.parse`.  Numbers keep their raw
source text: the relay never does arithmetic on them. -/
inductive Json where
  | null
  | bool (b : Bool)
  | num (raw : String)
  | str (s : String)
  | arr (elems : List Json)
  | obj (members : List (String × Json))

/-- The whitespace accepted between JSON tokens. -/
def jsonWS (c : Char) : Bool :=
  c = ' ' || c = '\t' || c = '\n' || c = '\r'

/-- Hexadecimal digit value, for `\u` escapes. -/
def hexVal (c : Char) : Option Nat :=
  if '0'.toNat ≤ c.toNat ∧ c.toNat ≤ '9'.toNat then some (c.toNat - '0'.toNat)
  else if 'a'.toNat ≤ c.toNat ∧ c.toNat ≤ 'f'.toNat then some (c.toNat - 'a'.toNat + 10)
  else if 'A'.toNat ≤ c.toNat ∧ c.toNat ≤ 'F'.toNat then some (c.toNat - 'A'.toNat + 10)
  else none

/-- Scan the body of a JSON string literal after the opening quote,
returning the decoded characters and the input after the closing quote. -/
def scanJsonString : Nat → List Char → Option (List Char × List Char)
  | 0, _ => none
  | _, [] => none
  | fuel + 1, c :: rest =>
    if c = '"' then some ([], rest)
    else if c = '\\' then
      match rest with
      | [] => none
      | e :: rest2 =>
        let dec : Option (Char × List Char) :=
          if e = '"' then some ('"', rest2)
          else if e = '\\' then some ('\\', rest2)
          else if e = '/' then some ('/', rest2)
          else if e = 'b' then some ('\x08', rest2)
          else if e = 'f' then some ('\x0c', rest2)
          else if e = 'n' then some ('\n', rest2)
          else if e = 'r' then some ('\r', rest2)
          else if e = 't' then some ('\t', rest2)
          else if e = 'u' then
            match rest2 with
            | h1 :: h2 :: h3 :: h4 :: rest3 =>
              match hexVal h1, hexVal h2, hexVal h3, hexVal h4 with
              | some v1, some v2, some v3, some v4 =>
                some (Char.ofNat (v1 * 4096 + v2 * 256 + v3 * 16 + v4), rest3)
              | _, _, _, _ => none
            | _ => none
          else none
        match dec with
        | none => none
        | some (ch, rest') =>
          match scanJsonString fuel rest' with
          | some (s, rem) => some (ch :: s, rem)
          | none => none
    else if c.toNat < 32 then none
    else
      match scanJsonString fuel rest with
      | some (s, rem) => some (c :: s, rem)
      | none => none

/-- Scan a JSON number token (grammar of RFC 8259: optional minus,
integer part without leading zeros, optional fraction, optional
exponent), returning its raw text and the rest of the input. -/
def scanJsonNumber (l : List Char) : Option (List Char × List Char) :=
  let afterMinus := fun (m : List Char) (l1 : List Char) =>
    match l1 with
    | [] => none
    | c :: rest =>
      if c = '0' then some (m ++ [c], rest)
      else if c.isDigit then
        some (m ++ c :: rest.takeWhile Char.isDigit, rest.dropWhile Char.isDigit)
      else none
  let intPart :=
    match l with
    | '-' :: rest => afterMinus ['-'] rest
    | _ => afterMinus [] l
  match intPart with
  | none => none
  | some (i, rest1) =>
    let fracPart :=
      match rest1 with
      | '.' :: d :: rest2 =>
        if d.isDigit then
          some (i ++ '.' :: d :: rest2.takeWhile Char.isDigit, rest2.dropWhile Char.isDigit)
        else none
      | _ => some (i, rest1)
    match fracPart with
    | none => none
    | some (f, rest2) =>
      match rest2 with
      | e :: rest3 =>
        if e = 'e' ∨ e = 'E' then
          let signPart :=
            match rest3 with
            | s :: rest4 => if s = '+' ∨ s = '-' then (f ++ [e, s], rest4) else (f ++ [e], rest3)
            | [] => (f ++ [e], rest3)
          match signPart with
          | (g, rest5) =>
            match rest5 with
            | d :: rest6 =>
              if d.isDigit then
                some (g ++ d :: rest6.takeWhile Char.isDigit, rest6.dropWhile Char.isDigit)
              else none
            | [] => none
        else some (f, rest2)
      | [] => some (f, rest2)

mutual

/-- Recursive-descent JSON value reader (model of `JSON.parse`), on fuel
so that it is structurally recursive and reduces inside the kernel. -/
def readJsonValue : Nat → List Char → Option (Json × List Char)
  | 0, _ => none
  | fuel + 1, input =>
    match input.dropWhile jsonWS with
    | [] => none
    | c :: rest =>
      if c = '{' then
        match (c :: rest).tail.dropWhile jsonWS with
        | '}' :: rest2 => some (Json.obj [], rest2)
        | _ => match readJsonMembers fuel rest with
               | some (ms, rest2) => some (Json.obj ms, rest2)
               | none => none
      else if c = '[' then
        match (c :: rest).tail.dropWhile jsonWS with
        | ']' :: rest2 => some (Json.arr [], rest2)
        | _ => match readJsonItems fuel rest with
               | some (xs, rest2) => some (Json.arr xs, rest2)
               | none => none
      else if c = '"' then
        match scanJsonString (rest.length + 1) rest with
        | some (s, rest2) => some (Json.str (String.mk s), rest2)
        | none => none
      else if c = 't' then
        if List.isPrefixOf ['r', 'u', 'e'] rest then some (Json.bool true, rest.drop 3) else none
      else if c = 'f' then
        if List.isPrefixOf ['a', 'l', 's', 'e'] rest then some (Json.bool false, rest.drop 4) else none
      else if c = 'n' then
        if List.isPrefixOf ['u', 'l', 'l'] rest then some (Json.null, rest.drop 3) else none
      else
        match scanJsonNumber (c :: rest) with
        | some (raw, rest2) => some (Json.num (String.mk raw), rest2)
        | none => none

/-- Object members after the opening brace (at least one member). -/
def readJsonMembers : Nat → List Char → Option (List (String × Json) × List Char)
  | 0, _ => none
  | fuel + 1, input =>
    match input.dropWhile jsonWS with
    | '"' :: rest =>
      match scanJsonString (rest.length + 1) rest with
      | some (k, rest2) =>
        match rest2.dropWhile jsonWS with
        | ':' :: rest3 =>
          match readJsonValue fuel rest3 with
          | some (v, rest4) =>
            match rest4.dropWhile jsonWS with
            | ',' :: rest5 =>
              match readJsonMembers fuel rest5 with
              | some (ms, rest6) => some ((String.mk k, v) :: ms, rest6)
              | none => none
            | '}' :: rest5 => some ([(String.mk k, v)], rest5)
            | _ => none
          | none => none
        | _ => none
      | none => none
    | _ => none

/-- Array items after the opening bracket (at least one item). -/
def readJsonItems : Nat → List Char → Option (List Json × List Char)
  | 0, _ => none
  | fuel + 1, input =>
    match readJsonValue fuel input with
    | some (v, rest) =>
      match rest.dropWhile jsonWS with
      | ',' :: rest2 =>
        match readJsonItems fuel rest2 with
        | some (xs, rest3) => some (v :: xs, rest3)
        | none => none
      | ']' :: rest2 => some ([v], rest2)
      | _ => none
    | none => none

end

/-- Model of `JSON.parse` on a character list: one JSON value with
nothing but whitespace around it, `none` on a syntax error (the
JavaScript code catches the thrown exception). -/
def jsonParse (l : List Char) : Option Json :=
  match readJsonValue (4 * l.length + 8) l with
  | some (j, rest) => if rest.dropWhile jsonWS = [] then some j else none
  | none => none

/-- JavaScript object field access with the duplicate-key rule of
`JSON.parse`: the last occurrence of a key wins. -/
def objField (k : String) (members : List (String × Json)) : Option Json :=
  ((members.filter (fun p => p.1 == k)).getLast?).map (fun p => p.2)

/-- The `text` fragment a parsed SSE payload contributes, when the code's
truthiness test `if (jsonData.text)` accepts it: the payload must be an
object whose `text` field is a non-empty string. -/
def truthyText (j : Json) : Option String :=
  match j with
  | Json.obj ms =>
    match objField "text" ms with
    | some (Json.str s) => if s = "" then none else some s
    | _ => none
  | _ => none

/-- The delta content of a synthesized streaming chunk:
`jsonData.text || ""` in `src/handlers/chat.ts`. -/
def sseTextOrEmpty (j : Json) : String :=
  (truthyText j).getD ""

/-- The `finish_reason` field of a parsed SSE payload, as a string when
it is one (the only shape the vendor sends). -/
def sseFinishString (j : Json) : Option String :=
  match j with
  | Json.obj ms =>
    match objField "finish_reason" ms with
    | some (Json.str s) => some s
    | _ => none
  | _ => none

/-- The streaming loop's termination test
`jsonData.finish_reason !== null && jsonData.finish_reason !== undefined`:
the field is present and its value is not JSON `null`. -/
def sseHasFinish (j : Json) : Bool :=
  match j with
  | Json.obj ms =>
    match objField "finish_reason" ms with
    | some Json.null => false
    | some _ => true
    | none => false
  | _ => false

/-- Significance test of the streaming loop in `handleStreamingResponse`:
the line is trimmed first, then checked for the `data:` prefix
(`const line = buffer.substring(0, newlineIndex).trim(); if
(!line.startsWith("data:")) continue;`). -/
def streamLineSignificant (rawLine : String) : Bool :=
  List.isPrefixOf "data:".data (trimChars rawLine.data)

/-- Significance test of the non-streaming `parseSSEResponse`: the raw,
untrimmed line is checked for the `data:` prefix
(`if (line.startsWith("data:"))`). -/
def nonStreamLineSignificant (rawLine : String) : Bool :=
  List.isPrefixOf "data:".data rawLine.data

/-- The significance predicate as the spec words it, for either mode: a
line is significant only if it starts with the literal prefix `data:`
after trimming leading and trailing whitespace. -/
def specLineSignificant (rawLine : String) : Bool :=
  List.isPrefixOf "data:".data (trimChars rawLine.data)

/-- What the streaming loop does with one complete vendor line. -/
inductive LineAction where
  | skip
  | terminate
  | emit (j : Json)

/-- Classification of one vendor line by the streaming loop of
`handleStreamingResponse`: trim; ignore without the `data:` prefix;
strip the prefix and trim; `[DONE]` ends the loop; a payload that fails
`JSON.parse`, or is JSON `null` (reading `.text` of `null` throws, and
the surrounding `catch` skips the line), is skipped; otherwise the
parsed payload is turned into a chunk and written. -/
def classifyLine (rawLine : String) : LineAction :=
  let line := trimChars rawLine.data
  if ¬ List.isPrefixOf "data:".data line then LineAction.skip
  else
    let dataContent := trimChars (line.drop 5)
    if dataContent = "[DONE]".data then LineAction.terminate
    else
      match jsonParse dataContent with
      | none => LineAction.skip
      | some Json.null => LineAction.skip
      | some j => LineAction.emit j

/-- A write to the downstream channel: a chunk with its delta content
and `finish_reason`, or the final `data: [DONE]` terminator line. -/
inductive StreamWrite where
  | chunk (content : String) (finishReason : Option String)
  | done
deriving DecidableEq

/-- State of the streaming translator: the successful downstream writes
in order, the number of write attempts, and the `aborted` /
`streamFinished` flags of `handleStreamingResponse`. -/
structure StreamState where
  written : List StreamWrite
  writeAttempts : Nat
  aborted : Bool
  streamFinished : Bool
deriving DecidableEq

/-- The initial streaming state. -/
def initStreamState : StreamState :=
  { written := [], writeAttempts := 0, aborted := false, streamFinished := false }

/-- One iteration of the line loop of `handleStreamingResponse`, with the
downstream channel modelled by `writeOk`: attempt `k` of `writer.write`
succeeds exactly when `writeOk k` is `true`.  A failing write sets
`aborted`, aborts the writer and ends the loop; after a successful write
a present non-null `finish_reason` ends the loop. -/
def processLine (writeOk : Nat → Bool) (st : StreamState) (rawLine : String) : StreamState :=
  if st.streamFinished then st
  else
    match classifyLine rawLine with
    | LineAction.skip => st
    | LineAction.terminate => { st with streamFinished := true }
    | LineAction.emit j =>
      if writeOk st.writeAttempts then
        let st' := { st with
          written := st.written ++ [StreamWrite.chunk (sseTextOrEmpty j) (sseFinishString j)],
          writeAttempts := st.writeAttempts + 1 }
        if sseHasFinish j then { st' with streamFinished := true } else st'
      else
        { st with writeAttempts := st.writeAttempts + 1, aborted := true, streamFinished := true }

/-- The epilogue of `handleStreamingResponse`: unless the stream was
aborted, write the final `data: [DONE]` terminator, itself aborting on
failure. -/
def finalizeStream (writeOk : Nat → Bool) (st : StreamState) : StreamState :=
  if st.aborted then st
  else if writeOk st.writeAttempts then
    { st with written := st.written ++ [StreamWrite.done], writeAttempts := st.writeAttempts + 1 }
  else
    { st with writeAttempts := st.writeAttempts + 1, aborted := true }

/-- Observable outcome of one streaming translation: the downstream
writes, the abort flag, whether the writer was closed normally, and
whether the upstream reader was released (`reader.cancel()` runs in the
`finally` block on every path). -/
structure StreamRunResult where
  written : List StreamWrite
  aborted : Bool
  writerClosed : Bool
  readerReleased : Bool
deriving DecidableEq

/-- Run the streaming translator of `handleStreamingResponse` over the
complete vendor lines, then the epilogue and the `finally` block. -/
def runStreamLines (writeOk : Nat → Bool) (lines : List String) : StreamRunResult :=
  let st := finalizeStream writeOk (lines.foldl (processLine writeOk) initStreamState)
  { written := st.written, aborted := st.aborted,
    writerClosed := !st.aborted, readerReleased := true }

/-- The complete (newline-terminated) lines the streaming loop extracts
from the vendor body; the final unterminated carry-over segment is never
processed. -/
def vendorCompleteLines (body : String) : List String :=
  ((splitLines body.data).dropLast).map String.mk

/-- Streaming translation of a whole vendor body. -/
def runStreamBody (writeOk : Nat → Bool) (body : String) : StreamRunResult :=
  runStreamLines writeOk (vendorCompleteLines body)

/-- The text fragment one line contributes in `parseSSEResponse`:
nothing without the (untrimmed) `data:` prefix, otherwise the truthy
`text` field of the parsed payload, if any. -/
def nonStreamLineText (line : List Char) : List Char :=
  if List.isPrefixOf "data:".data line then
    match jsonParse (trimChars (line.drop 5)) with
    | some j => ((truthyText j).getD "").data
    | none => []
  else []

/-- The accumulator loop of `parseSSEResponse`
(`let fullText = ""; for (const line of responseText.split("\n")) ...
fullText += jsonData.text`). -/
def parseSSELines (lines : List (List Char)) : List Char :=
  lines.foldl (fun fullText line => fullText ++ nonStreamLineText line) []

/-- `src/utils.ts` `parseSSEResponse`: concatenate the truthy `text`
fields of every `data:`-prefixed line of the buffered body. -/
def parseSSEResponse (responseText : String) : String :=
  String.mk (parseSSELines (splitLines responseText.data))

/-- The claim's reading of the non-streaming assembly: over every line
of the body, take the lines that are significant per the spec's framing
grammar (trimmed before the prefix test), and concatenate the `text`
fragments present in their payloads, in arrival order. -/
def specAssembledText (body : String) : String :=
  String.mk ((splitLines body.data).map (fun line =>
    if specLineSignificant (String.mk line) then
      match jsonParse (trimChars ((trimChars line).drop 5)) with
      | some j => ((truthyText j).getD "").data
      | none => []
    else [])).flatten

/-- The synthesized non-streaming chat-completion response: assistant
content, `finish_reason`, and every usage counter
(`handleNonStreamingResponse` in `src/handlers/chat.ts`; the random id
and wall-clock `created` field are outside the model). -/
structure ChatCompletionResult where
  content : String
  finishReason : String
  promptTokens : Nat
  completionTokens : Nat
  totalTokens : Nat
  cachedTokens : Nat
  promptAudioTokens : Nat
  reasoningTokens : Nat
  completionAudioTokens : Nat
  acceptedPredictionTokens : Nat
  rejectedPredictionTokens : Nat
deriving DecidableEq

/-- `handleNonStreamingResponse`: buffer the whole vendor body, assemble
the text with `parseSSEResponse`, and embed it in a single response with
`finish_reason` "stop" and all usage counters zero. -/
def handleNonStreamingResponse (responseText : String) : ChatCompletionResult :=
  { content := parseSSEResponse responseText
    finishReason := "stop"
    promptTokens := 0
    completionTokens := 0
    totalTokens := 0
    cachedTokens := 0
    promptAudioTokens := 0
    reasoningTokens := 0
    completionAudioTokens := 0
    acceptedPredictionTokens := 0
    rejectedPredictionTokens := 0 }

/-- An inbound OpenAI-style message. -/
structure OpenAIMessage where
  role : String
  content : String
deriving DecidableEq

/-- The nested `content` object of a vendor message. -/
structure RaycastMessageContent where
  text : String
deriving DecidableEq

/-- A vendor chat message `{author, content: {text}}`. -/
structure RaycastMessage where
  author : String
  content : RaycastMessageContent
deriving DecidableEq

/-- Result of `convertMessages`. -/
structure MessageConversionResult where
  raycastMessages : List RaycastMessage
  systemInstruction : String
deriving DecidableEq

/-- The loop body of `convertMessages`, on the (index, message) pairs of
the enumerated input and the (systemInstruction, raycastMessages)
accumulator. -/
def convertStep (st : String × List RaycastMessage) (p : Nat × OpenAIMessage) :
    String × List RaycastMessage :=
  if p.2.role = "system" ∧ p.1 = 0 then (p.2.content, st.2)
  else if p.2.role = "user" ∨ p.2.role = "assistant" then
    (st.1, st.2 ++ [{ author := p.2.role, content := { text := p.2.content } }])
  else st

/-- `src/utils.ts` `convertMessages`: iterate with the index; the first
message, when its role is "system", becomes the system instruction;
"user"/"assistant" messages are pushed; everything else is dropped. -/
def convertMessages (openaiMessages : List OpenAIMessage) : MessageConversionResult :=
  let final := openaiMessages.enum.foldl convertStep ("markdown", [])
  { raycastMessages := final.2, systemInstruction := final.1 }

/-- The vendor messages as the claim describes them: exactly the
messages with role "user" or "assistant", in order, each mapped to
`{author: role, content: {text: content}}`. -/
def specVendorMessages (msgs : List OpenAIMessage) : List RaycastMessage :=
  msgs.filterMap (fun m =>
    if m.role = "user" ∨ m.role = "assistant" then
      some { author := m.role, content := { text := m.content } }
    else none)

/-- The conversion as the claim describes it: a leading "system" message
becomes the system instruction and is excluded; otherwise the system
instruction is the literal "markdown"; the vendor messages are the
user/assistant messages of the remainder, in input order. -/
def specConvert (msgs : List OpenAIMessage) : MessageConversionResult :=
  match msgs with
  | [] => { raycastMessages := [], systemInstruction := "markdown" }
  | m :: rest =>
    if m.role = "system" then
      { raycastMessages := specVendorMessages rest, systemInstruction := m.content }
    else
      { raycastMessages := specVendorMessages (m :: rest), systemInstruction := "markdown" }

/-- The environment fields consumed by header assembly. -/
structure Env where
  deviceId : String
  bearerToken : String
  signatureSecret : Option String
deriving DecidableEq

/-- The literal vendor client version string from `src/config.ts`. -/
def userAgentString : String :=
  "Raycast/1.94.2 (macOS Version 15.3.2 (Build 24D81))"

/-- `src/utils.ts` `getRaycastHeaders` as an ordered header list.  The
wall-clock timestamp is supplied by the caller.  The signature header is
added only when `bodyString` is truthy (`if (bodyString)`): present and
not the empty string. -/
def getRaycastHeaders (timestamp : String) (env : Env) (bodyString : Option String) :
    List (String × String) :=
  [("Host", "backend.raycast.com"),
   ("Accept", "application/json"),
   ("User-Agent", userAgentString),
   ("Authorization", "Bearer " ++ env.bearerToken),
   ("Accept-Language", "en-US,en;q=0.9"),
   ("Content-Type", "application/json"),
   ("Connection", "close"),
   ("X-Raycast-Timestamp", timestamp),
   ("X-Raycast-DeviceId", env.deviceId)] ++
  (match bodyString with
   | some b =>
     if b = "" then []
     else [("X-Raycast-Signature-v2",
            calculateSignatureV2 timestamp env.deviceId b env.signatureSecret)]
   | none => [])

/-- The header set of the GET model-listing request: `fetchModels` calls
`getRaycastHeaders(env)` with the default `bodyString = null`. -/
def fetchModelsHeaders (timestamp : String) (env : Env) : List (String × String) :=
  getRaycastHeaders timestamp env none

/-- Whether a body argument is truthy in JavaScript: present and not the
empty string. -/
def bodyTruthy : Option String → Bool
  | some b => b ≠ ""
  | none => false

/-- Whether the streaming loop turns this vendor line into a chunk and
attempts a downstream write. -/
def lineEmitsChunk (rawLine : String) : Bool :=
  match classifyLine rawLine with
  | LineAction.emit _ => true
  | _ => false

/-- Whether this vendor line is a significant line carrying the literal
`[DONE]` token (the streaming loop's terminator test). -/
def lineIsDoneToken (rawLine : String) : Bool :=
  match classifyLine rawLine with
  | LineAction.terminate => true
  | _ => false

/-- The non-streaming assembly as the code performs it, in map/concat
form: the text fragments of the `data:`-prefixed (untrimmed) lines of
the body, concatenated in arrival order. -/
def assembledTextRaw (body : String) : String :=
  String.mk (((splitLines body.data).map nonStreamLineText).flatten)

/-- The spec's worked example body:
`data: {"text":"Hel"}\ndata: {"text":"lo"}\ndata: {"finish_reason":"stop"}\n`. -/
def helloExampleBody : String :=
  "data: \x7b\"text\":\"Hel\"\x7d\ndata: \x7b\"text\":\"lo\"\x7d\ndata: \x7b\"finish_reason\":\"stop\"\x7d\n"

theorem charToNatOfNat (n : Nat) (h : n.isValidChar) : (Char.ofNat n).toNat = n := by
  simp [Char.ofNat, Char.ofNatAux, h, Char.toNat, UInt32.toNat]

theorem rotCharCode_invol (c : Char) : rotCharCode (rotCharCode c) = c := by
  have hv : ∀ n : Nat, n < 55296 → (Char.ofNat n).toNat = n :=
    fun n h => charToNatOfNat n (Or.inl h)
  by_cases h1 : 65 ≤ c.toNat ∧ c.toNat ≤ 90
  · have e1 : rotCharCode c = Char.ofNat ((c.toNat - 65 + 13) % 26 + 65) := by
      simp only [rotCharCode, if_pos h1]
    have hm : (c.toNat - 65 + 13) % 26 + 65 < 55296 := by omega
    have hmv := hv _ hm
    have hm1 : 65 ≤ (Char.ofNat ((c.toNat - 65 + 13) % 26 + 65)).toNat ∧
        (Char.ofNat ((c.toNat - 65 + 13) % 26 + 65)).toNat ≤ 90 := by
      rw [hmv]; omega
    rw [e1]
    have e2 : rotCharCode (Char.ofNat ((c.toNat - 65 + 13) % 26 + 65)) =
        Char.ofNat (((Char.ofNat ((c.toNat - 65 + 13) % 26 + 65)).toNat - 65 + 13) % 26 + 65) := by
      simp only [rotCharCode, if_pos hm1]
    rw [e2, hmv]
    have : ((c.toNat - 65 + 13) % 26 + 65 - 65 + 13) % 26 + 65 = c.toNat := by omega
    rw [this, Char.ofNat_toNat]
  · by_cases h2 : 97 ≤ c.toNat ∧ c.toNat ≤ 122
    · have e1 : rotCharCode c = Char.ofNat ((c.toNat - 97 + 13) % 26 + 97) := by
        simp only [rotCharCode, if_neg h1, if_pos h2]
      have hm : (c.toNat - 97 + 13) % 26 + 97 < 55296 := by omega
      have hmv := hv _ hm
      have hnot1 : ¬ (65 ≤ (Char.ofNat ((c.toNat - 97 + 13) % 26 + 97)).toNat ∧
          (Char.ofNat ((c.toNat - 97 + 13) % 26 + 97)).toNat ≤ 90) := by
        rw [hmv]; omega
      have hm2 : 97 ≤ (Char.ofNat ((c.toNat - 97 + 13) % 26 + 97)).toNat ∧
          (Char.ofNat ((c.toNat - 97 + 13) % 26 + 97)).toNat ≤ 122 := by
        rw [hmv]; omega
      rw [e1]
      have e2 : rotCharCode (Char.ofNat ((c.toNat - 97 + 13) % 26 + 97)) =
          Char.ofNat (((Char.ofNat ((c.toNat - 97 + 13) % 26 + 97)).toNat - 97 + 13) % 26 + 97) := by
        simp only [rotCharCode, if_neg hnot1, if_pos hm2]
      rw [e2, hmv]
      have : ((c.toNat - 97 + 13) % 26 + 97 - 97 + 13) % 26 + 97 = c.toNat := by omega
      rw [this, Char.ofNat_toNat]
    · by_cases h3 : 48 ≤ c.toNat ∧ c.toNat ≤ 57
      · have e1 : rotCharCode c = Char.ofNat ((c.toNat - 48 + 5) % 10 + 48) := by
          simp only [rotCharCode, if_neg h1, if_neg h2, if_pos h3]
        have hm : (c.toNat - 48 + 5) % 10 + 48 < 55296 := by omega
        have hmv := hv _ hm
        have hnot1 : ¬ (65 ≤ (Char.ofNat ((c.toNat - 48 + 5) % 10 + 48)).toNat ∧
            (Char.ofNat ((c.toNat - 48 + 5) % 10 + 48)).toNat ≤ 90) := by
          rw [hmv]; omega
        have hnot2 : ¬ (97 ≤ (Char.ofNat ((c.toNat - 48 + 5) % 10 + 48)).toNat ∧
            (Char.ofNat ((c.toNat - 48 + 5) % 10 + 48)).toNat ≤ 122) := by
          rw [hmv]; omega
        have hm3 : 48 ≤ (Char.ofNat ((c.toNat - 48 + 5) % 10 + 48)).toNat ∧
            (Char.ofNat ((c.toNat - 48 + 5) % 10 + 48)).toNat ≤ 57 := by
          rw [hmv]; omega
        rw [e1]
        have e2 : rotCharCode (Char.ofNat ((c.toNat - 48 + 5) % 10 + 48)) =
            Char.ofNat (((Char.ofNat ((c.toNat - 48 + 5) % 10 + 48)).toNat - 48 + 5) % 10 + 48) := by
          simp only [rotCharCode, if_neg hnot1, if_neg hnot2, if_pos hm3]
        rw [e2, hmv]
        have : ((c.toNat - 48 + 5) % 10 + 48 - 48 + 5) % 10 + 48 = c.toNat := by omega
        rw [this, Char.ofNat_toNat]
      · have e1 : rotCharCode c = c := by
          simp only [rotCharCode, if_neg h1, if_neg h2, if_neg h3]
        rw [e1, e1]

theorem specRotChar_eq (c : Char) : specRotChar c = rotCharCode c := by
  simp only [specRotChar, rotCharCode,
    show ('A'.toNat : Nat) = 65 from rfl, show ('Z'.toNat : Nat) = 90 from rfl,
    show ('a'.toNat : Nat) = 97 from rfl, show ('z'.toNat : Nat) = 122 from rfl,
    show ('0'.toNat : Nat) = 48 from rfl, show ('9'.toNat : Nat) = 57 from rfl]
  split_ifs with h1 h2 h3
  · exact congrArg Char.ofNat (by omega)
  · exact congrArg Char.ofNat (by omega)
  · exact congrArg Char.ofNat (by omega)
  · rfl

theorem specRot_eq (s : String) : specRot s = rot13rot5Encode s := by
  simp only [specRot, rot13rot5Encode]
  exact congrArg String.mk (List.map_congr_left (fun c _ => specRotChar_eq c))

theorem jsHexByte_eq_hexPair (b : Nat) (hb : b < 256) :
    padStartTwo (natHexDigits b) = hexPair b := by
  unfold natHexDigits
  by_cases h16 : b < 16
  · have hd : b / 16 = 0 := Nat.div_eq_of_lt h16
    have hm : b % 16 = b := Nat.mod_eq_of_lt h16
    simp [natHexDigitsAux, h16, padStartTwo, hexPair, hd, hm,
      show hexDigit 0 = '0' by decide]
  · obtain ⟨b', rfl⟩ : ∃ b'', b = b'' + 1 := ⟨b - 1, by omega⟩
    have hq : (b' + 1) / 16 < 16 := by omega
    simp [natHexDigitsAux, h16, hq, padStartTwo, hexPair]

theorem jsHex_eq_lowercaseHex (bs : List Nat) (h : ∀ b ∈ bs, b < 256) :
    jsHexOfBytes bs = lowercaseHex bs := by
  simp only [jsHexOfBytes, lowercaseHex]
  refine congrArg String.mk ?_
  induction bs with
  | nil => rfl
  | cons b rest ih =>
    simp only [List.flatMap_cons]
    rw [jsHexByte_eq_hexPair b (h b (by simp)), ih (fun x hx => h x (by simp [hx]))]

theorem sha256Bytes_lt (m : List Nat) : ∀ b ∈ sha256Bytes m, b < 256 := by
  intro b hb
  simp only [sha256Bytes, List.mem_flatMap, wordBytesBE] at hb
  obtain ⟨w, _, hw⟩ := hb
  simp only [List.mem_cons, List.not_mem_nil, or_false] at hw
  rcases hw with h | h | h | h <;> omega

theorem hmacSha256_lt (key msg : List Nat) : ∀ b ∈ hmacSha256 key msg, b < 256 := by
  intro b hb
  simp only [hmacSha256] at hb
  exact sha256Bytes_lt _ b hb

/-- C7: applying the letter/digit rotation transform twice returns the
original string: `rot13rot5Encode` is an involution (ROT13 twice over a
range of 26 and ROT5 twice over a range of 10 are both the identity). -/
theorem rot13rot5Encode_involutive (s : String) :
    rot13rot5Encode (rot13rot5Encode s) = s := by
  simp only [rot13rot5Encode, List.map_map]
  have : s.data.map (rotCharCode ∘ rotCharCode) = s.data.map id :=
    List.map_congr_left (fun c _ => rotCharCode_invol c)
  rw [this, List.map_id]

/-- C8: with no signing secret configured, `calculateSignatureV2` signs
with the hardcoded default secret constant — the same signature as an
explicitly supplied default secret, with no failure and no different
algorithm. -/
theorem calculateSignatureV2_default_secret (t d B : String) :
    calculateSignatureV2 t d B none =
      calculateSignatureV2 t d B (some defaultSignatureSecret) := by
  have h : ¬ (defaultSignatureSecret = "") := by decide
  simp only [calculateSignatureV2, if_neg h]

/-- C1 (amended): for every timestamp, device id, body and non-empty
secret S, `calculateSignatureV2` is exactly the lowercase-hex
HMAC-SHA256, keyed with the UTF-8 bytes of S, of
`rot(t) ++ "." ++ rot(d) ++ "." ++ rot(h)` with `h` the lowercase-hex
SHA-256 digest of the UTF-8 body bytes, `rot` the fixed
ROT13-letters/ROT5-digits substitution.  (An empty secret is replaced by
the hardcoded default before signing.) -/
theorem calculateSignatureV2_eq_specSign (t d B S : String) (hS : S ≠ "") :
    calculateSignatureV2 t d B (some S) = specSign t d B S := by
  simp only [calculateSignatureV2, specSign, if_neg hS, joinWith, List.map]
  rw [jsHex_eq_lowercaseHex _ (sha256Bytes_lt _),
      jsHex_eq_lowercaseHex _ (hmacSha256_lt _ _),
      specRot_eq, specRot_eq, specRot_eq]
  simp [String.append_assoc]

/-- C1 witness: the amended statement at a concrete input. -/
theorem calculateSignatureV2_eq_specSign_witness :
    ("k" : String) ≠ "" ∧
      calculateSignatureV2 "" "" "" (some "k") = specSign "" "" "" "k" :=
  ⟨by decide, calculateSignatureV2_eq_specSign "" "" "" "k" (by decide)⟩

set_option maxRecDepth 100000 in
/-- C1 counterexample: with the empty-string secret the code signs with
the hardcoded default secret, not with the supplied secret, so the
claimed equation fails at S = "". -/
theorem calculateSignatureV2_empty_secret_cex :
    ¬ (calculateSignatureV2 "" "" "" (some "") = specSign "" "" "" "") := by
  decide

theorem convertStep_enumFrom (msgs : List OpenAIMessage) :
    ∀ (n : Nat), n ≠ 0 → ∀ (sys : String) (acc : List RaycastMessage),
    List.foldl convertStep (sys, acc) (List.enumFrom n msgs) =
      (sys, acc ++ specVendorMessages msgs) := by
  induction msgs with
  | nil => intro n hn sys acc; simp [specVendorMessages]
  | cons m rest ih =>
    intro n hn sys acc
    rw [List.enumFrom_cons, List.foldl_cons]
    by_cases hr : m.role = "user" ∨ m.role = "assistant"
    · have hstep : convertStep (sys, acc) (n, m) =
          (sys, acc ++ [{ author := m.role, content := { text := m.content } }]) := by
        have hns : ¬ (m.role = "system" ∧ n = 0) := fun h => hn h.2
        simp [convertStep, hns, hr]
      rw [hstep, ih (n + 1) (by omega)]
      simp [specVendorMessages, List.filterMap_cons, hr]
    · have hstep : convertStep (sys, acc) (n, m) = (sys, acc) := by
        have hns : ¬ (m.role = "system" ∧ n = 0) := fun h => hn h.2
        simp [convertStep, hns, hr]
      rw [hstep, ih (n + 1) (by omega)]
      simp [specVendorMessages, List.filterMap_cons, hr]

/-- C6: `convertMessages` is total and produces exactly what the claim
says: the first message's content as system instruction when its role is
"system" (that message excluded), otherwise the literal "markdown"; and
as vendor messages exactly the "user"/"assistant" messages (excluding a
leading system message), in input order, mapped to
`{author, content: {text}}`, all other roles dropped. -/
theorem convertMessages_eq_specConvert (msgs : List OpenAIMessage) :
    convertMessages msgs = specConvert msgs := by
  cases msgs with
  | nil => rfl
  | cons m rest =>
    simp only [convertMessages, List.enum_cons, List.foldl_cons]
    by_cases hs : m.role = "system"
    · have hstep : convertStep ("markdown", []) (0, m) = (m.content, []) := by
        simp [convertStep, hs]
      rw [hstep, convertStep_enumFrom rest 1 one_ne_zero]
      simp [specConvert, hs]
    · by_cases hr : m.role = "user" ∨ m.role = "assistant"
      · have hstep : convertStep ("markdown", []) (0, m) =
            ("markdown", [{ author := m.role, content := { text := m.content } }]) := by
          simp [convertStep, hs, hr]
        rw [hstep, convertStep_enumFrom rest 1 one_ne_zero]
        simp [specConvert, hs, specVendorMessages, List.filterMap_cons, hr]
      · have hstep : convertStep ("markdown", []) (0, m) = ("markdown", []) := by
          simp [convertStep, hs, hr]
        rw [hstep, convertStep_enumFrom rest 1 one_ne_zero]
        simp [specConvert, hs, specVendorMessages, List.filterMap_cons, hr]

theorem isPrefixOf_eq_true_iff (p l : List Char) :
    List.isPrefixOf p l = true ↔ p <+: l := List.isPrefixOf_iff_prefix

theorem prefix_dropTrailingWS (l : List Char) :
    List.isPrefixOf "data:".data ((l.reverse.dropWhile jsWhitespace).reverse) =
      List.isPrefixOf "data:".data l := by
  rw [Bool.eq_iff_iff, isPrefixOf_eq_true_iff, isPrefixOf_eq_true_iff]
  constructor
  · intro h
    refine h.trans ?_
    conv_rhs => rw [← l.reverse_reverse,
      ← List.takeWhile_append_dropWhile jsWhitespace l.reverse, List.reverse_append]
    exact List.prefix_append _ _
  · intro h
    obtain ⟨t, ht⟩ := h
    rw [← ht, List.reverse_append, List.dropWhile_append]
    by_cases he : (t.reverse.dropWhile jsWhitespace).isEmpty
    · rw [if_pos he]
      have hd : List.dropWhile jsWhitespace ("data:".data.reverse) = "data:".data.reverse := by
        decide
      rw [hd, List.reverse_reverse]
    · rw [if_neg he, List.reverse_append, List.reverse_reverse]
      exact List.prefix_append _ _

/-- C3 counterexample: on the line `" data:x"` (one leading space) the
streaming loop's significance test (trim, then prefix) accepts while the
non-streaming `parseSSEResponse` test (prefix on the raw line) rejects,
so the two parsers disagree and the non-streaming mode does not match
the claimed trim-first test. -/
theorem lineSignificant_disagree_cex :
    streamLineSignificant " data:x" = true ∧
      nonStreamLineSignificant " data:x" = false := by
  decide

/-- C3 (amended): the streaming loop is significant exactly per the
spec's framing grammar (trim, then the `data:` prefix), the
non-streaming parser tests the raw untrimmed line, and the two agree on
every line without leading whitespace. -/
theorem lineSignificant_agree (l : String)
    (h : l.data.dropWhile jsWhitespace = l.data) :
    streamLineSignificant l = specLineSignificant l ∧
      nonStreamLineSignificant l = streamLineSignificant l := by
  refine ⟨rfl, ?_⟩
  simp only [streamLineSignificant, nonStreamLineSignificant, trimChars, h]
  exact (prefix_dropTrailingWS l.data).symm

/-- C3 witness: the amended statement at a concrete line. -/
theorem lineSignificant_agree_witness :
    ("data: x").data.dropWhile jsWhitespace = ("data: x").data ∧
      (streamLineSignificant "data: x" = specLineSignificant "data: x" ∧
        nonStreamLineSignificant "data: x" = streamLineSignificant "data: x") :=
  ⟨by decide, lineSignificant_agree "data: x" (by decide)⟩

theorem splitLines_ne_nil (l : List Char) : splitLines l ≠ [] := by
  cases l with
  | nil => simp [splitLines]
  | cons c rest =>
    simp only [splitLines]
    split
    · simp
    · split <;> simp

theorem splitLines_append (a b : List Char) :
    splitLines (a ++ '\n' :: b) = splitLines a ++ splitLines b := by
  induction a with
  | nil => simp [splitLines]
  | cons c a' ih =>
    by_cases hc : c = '\n'
    · subst hc
      simp [splitLines, ih]
    · have goalstep : splitLines (c :: (a' ++ '\n' :: b)) =
          match splitLines (a' ++ '\n' :: b) with
          | [] => [[c]]
          | l :: ls => (c :: l) :: ls := by
        simp only [splitLines, if_neg hc]
      have goalstep2 : splitLines (c :: a') =
          match splitLines a' with
          | [] => [[c]]
          | l :: ls => (c :: l) :: ls := by
        simp only [splitLines, if_neg hc]
      rw [List.cons_append, goalstep, goalstep2, ih]
      rcases hs : splitLines a' with _ | ⟨l, ls⟩
      · exact absurd hs (splitLines_ne_nil a')
      · simp

theorem parseSSELines_acc (lines : List (List Char)) :
    ∀ acc : List Char,
      lines.foldl (fun fullText line => fullText ++ nonStreamLineText line) acc =
        acc ++ (lines.map nonStreamLineText).flatten := by
  induction lines with
  | nil => intro acc; simp
  | cons l rest ih =>
    intro acc
    simp only [List.foldl_cons, List.map_cons, List.flatten_cons, ih, List.append_assoc]

theorem parseSSELines_eq_flatten (lines : List (List Char)) :
    parseSSELines lines = (lines.map nonStreamLineText).flatten := by
  simpa [parseSSELines] using parseSSELines_acc lines []

/-- C4 counterexample: on the body `" data: {"text":"x"}"` (leading
space) the line is significant per the spec's framing grammar and
carries the present text fragment "x", but the non-streaming
translation, which tests the raw untrimmed line, assembles the empty
content — the claimed equality with the grammar-based concatenation
fails. -/
theorem nonStreaming_assembly_cex :
    ¬ ((handleNonStreamingResponse " data: \x7b\"text\":\"x\"\x7d").content =
        specAssembledText " data: \x7b\"text\":\"x\"\x7d") := by
  decide

/-- C4 (amended): the non-streaming translation is a single response
whose assistant content is the concatenation, in arrival order, of the
text fragments of the lines bearing the `data:` prefix before any
trimming, with finish_reason "stop" and every usage counter zero; on
the spec's worked example the content is "Hello". -/
theorem handleNonStreaming_characterization (body : String) :
    handleNonStreamingResponse body =
      { content := assembledTextRaw body
        finishReason := "stop"
        promptTokens := 0
        completionTokens := 0
        totalTokens := 0
        cachedTokens := 0
        promptAudioTokens := 0
        reasoningTokens := 0
        completionAudioTokens := 0
        acceptedPredictionTokens := 0
        rejectedPredictionTokens := 0 } ∧
      (handleNonStreamingResponse helloExampleBody).content = "Hello" := by
  constructor
  · simp only [handleNonStreamingResponse, parseSSEResponse, assembledTextRaw,
      parseSSELines_eq_flatten]
  · decide

/-- C10: the non-streaming parser does not treat `data: [DONE]` as a
terminator: a body containing such a line assembles exactly as if the
line were absent, so text fragments of significant lines after it are
still included (the `[DONE]` token is merely an unparseable payload
that is skipped). -/
theorem nonStreaming_done_not_terminator (a b : String) :
    parseSSEResponse (a ++ "\ndata: [DONE]\n" ++ b) =
        parseSSEResponse a ++ parseSSEResponse b ∧
      parseSSEResponse (a ++ "\ndata: [DONE]\n" ++ b) =
        parseSSEResponse (a ++ "\n" ++ b) := by
  have hmk : ∀ x y : List Char, String.mk x ++ String.mk y = String.mk (x ++ y) :=
    fun _ _ => rfl
  have hsplit1 : (a ++ "\ndata: [DONE]\n" ++ b).data =
      a.data ++ '\n' :: ("data: [DONE]".data ++ '\n' :: b.data) := by
    rw [String.data_append, String.data_append, List.append_assoc]
    rfl
  have hsplit2 : (a ++ "\n" ++ b).data = a.data ++ '\n' :: b.data := by
    rw [String.data_append, String.data_append, List.append_assoc]
    rfl
  have hone : splitLines "data: [DONE]".data = ["data: [DONE]".data] := by decide
  have hfrag : nonStreamLineText "data: [DONE]".data = [] := by decide
  constructor
  · unfold parseSSEResponse
    rw [hsplit1, splitLines_append, splitLines_append, hone,
      parseSSELines_eq_flatten, parseSSELines_eq_flatten, parseSSELines_eq_flatten,
      List.map_append, List.map_append, List.flatten_append, List.flatten_append,
      List.map_cons, List.map_nil, List.flatten_cons, List.flatten_nil, hfrag]
    simp only [List.nil_append, List.append_nil]
    rw [hmk]
  · unfold parseSSEResponse
    rw [hsplit1, hsplit2, splitLines_append, splitLines_append, splitLines_append, hone,
      parseSSELines_eq_flatten, parseSSELines_eq_flatten,
      List.map_append, List.map_append, List.map_append,
      List.flatten_append, List.flatten_append, List.flatten_append,
      List.map_cons, List.map_nil, List.flatten_cons, List.flatten_nil, hfrag]
    simp only [List.nil_append, List.append_nil]

theorem processLine_finished (writeOk : Nat → Bool) (st : StreamState) (l : String)
    (h : st.streamFinished = true) : processLine writeOk st l = st := by
  simp [processLine, h]

theorem foldl_processLine_finished (writeOk : Nat → Bool) (lines : List String)
    (st : StreamState) (h : st.streamFinished = true) :
    lines.foldl (processLine writeOk) st = st := by
  induction lines with
  | nil => rfl
  | cons l rest ih => rw [List.foldl_cons, processLine_finished writeOk st l h, ih]

theorem processLine_no_done (writeOk : Nat → Bool) (st : StreamState) (l : String)
    (h : StreamWrite.done ∉ st.written) :
    StreamWrite.done ∉ (processLine writeOk st l).written := by
  unfold processLine
  split
  · exact h
  · split
    · exact h
    · exact h
    · split
      · split
        · simp_all
        · simp_all
      · exact h

theorem foldl_processLine_no_done (writeOk : Nat → Bool) (lines : List String)
    (st : StreamState) (h : StreamWrite.done ∉ st.written) :
    StreamWrite.done ∉ (lines.foldl (processLine writeOk) st).written := by
  induction lines generalizing st with
  | nil => exact h
  | cons l rest ih => exact ih _ (processLine_no_done writeOk st l h)

/-- C2: if the downstream write of a chunk fails, the streaming
translator aborts the downstream stream, processes no further vendor
line into a chunk (the successful writes are exactly those made before
the failure), never writes the `data: [DONE]` terminator, does not
close the writer normally, and still releases the upstream reader. -/
theorem streaming_write_failure (writeOk : Nat → Bool) (pre post : List String)
    (line : String) (st : StreamState)
    (hst : st = pre.foldl (processLine writeOk) initStreamState)
    (hfin : st.streamFinished = false)
    (hemit : lineEmitsChunk line = true)
    (hfail : writeOk st.writeAttempts = false) :
    runStreamLines writeOk (pre ++ line :: post) =
        { written := st.written, aborted := true,
          writerClosed := false, readerReleased := true } ∧
      StreamWrite.done ∉ st.written := by
  have hnodone : StreamWrite.done ∉ st.written := by
    rw [hst]
    exact foldl_processLine_no_done writeOk pre initStreamState (by simp [initStreamState])
  refine ⟨?_, hnodone⟩
  unfold lineEmitsChunk at hemit
  rcases hcl : classifyLine line with _ | _ | j
  · rw [hcl] at hemit; exact absurd hemit (by simp)
  · rw [hcl] at hemit; exact absurd hemit (by simp)
  · have hstep : processLine writeOk st line =
        { st with writeAttempts := st.writeAttempts + 1,
                  aborted := true, streamFinished := true } := by
      simp [processLine, hfin, hcl, hfail]
    unfold runStreamLines
    rw [List.foldl_append, ← hst, List.foldl_cons, hstep,
      foldl_processLine_finished writeOk post _ rfl]
    simp [finalizeStream]

/-- C2 witness: write attempt 1 (the second chunk) fails on the spec's
worked example body. -/
theorem streaming_write_failure_witness :
    (let writeOk : Nat → Bool := fun k => k == 0
     let pre : List String := ["data: \x7b\"text\":\"Hel\"\x7d"]
     let post : List String := ["data: \x7b\"finish_reason\":\"stop\"\x7d"]
     let line : String := "data: \x7b\"text\":\"lo\"\x7d"
     let st := pre.foldl (processLine writeOk) initStreamState
     st = pre.foldl (processLine writeOk) initStreamState ∧
       st.streamFinished = false ∧ lineEmitsChunk line = true ∧
       writeOk st.writeAttempts = false ∧
       (runStreamLines writeOk (pre ++ line :: post) =
           { written := st.written, aborted := true,
             writerClosed := false, readerReleased := true } ∧
         StreamWrite.done ∉ st.written)) := by
  refine ⟨rfl, by decide, by decide, by decide, ?_⟩
  exact streaming_write_failure _ _ _ _ _ rfl (by decide) (by decide) (by decide)

/-- C5: when the streaming loop reaches a significant line carrying the
literal `[DONE]` token while live, it terminates without emitting a
chunk for that line, processes no later vendor line, and — the
downstream channel accepting the final write — still emits the
synthesized `data: [DONE]` terminator exactly once. -/
theorem streaming_done_token (writeOk : Nat → Bool) (pre post : List String)
    (line : String) (st : StreamState)
    (hst : st = pre.foldl (processLine writeOk) initStreamState)
    (hfin : st.streamFinished = false)
    (habort : st.aborted = false)
    (hdone : lineIsDoneToken line = true)
    (hok : writeOk st.writeAttempts = true) :
    runStreamLines writeOk (pre ++ line :: post) =
        { written := st.written ++ [StreamWrite.done], aborted := false,
          writerClosed := true, readerReleased := true } ∧
      (st.written ++ [StreamWrite.done]).count StreamWrite.done = 1 := by
  have hnodone : StreamWrite.done ∉ st.written := by
    rw [hst]
    exact foldl_processLine_no_done writeOk pre initStreamState (by simp [initStreamState])
  constructor
  · unfold lineIsDoneToken at hdone
    rcases hcl : classifyLine line with _ | _ | j
    · rw [hcl] at hdone; exact absurd hdone (by simp)
    · have hstep : processLine writeOk st line = { st with streamFinished := true } := by
        simp [processLine, hfin, hcl]
      unfold runStreamLines
      rw [List.foldl_append, ← hst, List.foldl_cons, hstep,
        foldl_processLine_finished writeOk post _ rfl]
      simp [finalizeStream, habort, hok]
    · rw [hcl] at hdone; exact absurd hdone (by simp)
  · rw [List.count_append, List.count_eq_zero.mpr hnodone]
    rfl

/-- C5 witness: a `[DONE]` line after one delivered chunk, with a
further vendor line behind it that is not processed. -/
theorem streaming_done_token_witness :
    (let writeOk : Nat → Bool := fun _ => true
     let pre : List String := ["data: \x7b\"text\":\"Hel\"\x7d"]
     let post : List String := ["data: \x7b\"text\":\"ignored\"\x7d"]
     let line : String := "data: [DONE]"
     let st := pre.foldl (processLine writeOk) initStreamState
     st = pre.foldl (processLine writeOk) initStreamState ∧
       st.streamFinished = false ∧ st.aborted = false ∧
       lineIsDoneToken line = true ∧ writeOk st.writeAttempts = true ∧
       (runStreamLines writeOk (pre ++ line :: post) =
           { written := st.written ++ [StreamWrite.done], aborted := false,
             writerClosed := true, readerReleased := true } ∧
         (st.written ++ [StreamWrite.done]).count StreamWrite.done = 1)) := by
  refine ⟨rfl, by decide, by decide, by decide, by decide, ?_⟩
  exact streaming_done_token _ _ _ _ _ rfl (by decide) (by decide) (by decide) (by decide)

/-- C9 counterexample: with the empty-string body — a present body
argument — the signature header is omitted (`if (bodyString)` is a
truthiness test), so "signature header iff a body is present" fails. -/
theorem raycastHeaders_empty_body_cex :
    (some "" : Option String).isSome = true ∧
      List.lookup "X-Raycast-Signature-v2"
        (getRaycastHeaders "" { deviceId := "", bearerToken := "", signatureSecret := none }
          (some "")) = none := by
  decide

/-- C9 (amended): the outbound header set carries the computed
signature header exactly when the body argument is truthy (present and
non-empty); the fixed headers — host, accept, user-agent, bearer
authorization, content-type, device id, timestamp — are present either
way, and the GET model-listing request of `fetchModels`, made with no
body, gets no signature header. -/
theorem raycastHeaders_signature (ts : String) (env : Env) (bodyString : Option String) :
    (List.lookup "X-Raycast-Signature-v2"
        (getRaycastHeaders ts env bodyString)).isSome = bodyTruthy bodyString ∧
      List.lookup "Host" (getRaycastHeaders ts env bodyString) = some "backend.raycast.com" ∧
      List.lookup "Accept" (getRaycastHeaders ts env bodyString) = some "application/json" ∧
      List.lookup "User-Agent" (getRaycastHeaders ts env bodyString) = some userAgentString ∧
      List.lookup "Authorization" (getRaycastHeaders ts env bodyString) =
        some ("Bearer " ++ env.bearerToken) ∧
      List.lookup "Content-Type" (getRaycastHeaders ts env bodyString) =
        some "application/json" ∧
      List.lookup "X-Raycast-DeviceId" (getRaycastHeaders ts env bodyString) =
        some env.deviceId ∧
      List.lookup "X-Raycast-Timestamp" (getRaycastHeaders ts env bodyString) = some ts ∧
      List.lookup "X-Raycast-Signature-v2" (fetchModelsHeaders ts env) = none := by
  rcases bodyString with _ | b
  · simp [getRaycastHeaders, fetchModelsHeaders, bodyTruthy, List.lookup]
  · by_cases hb : b = ""
    · subst hb
      simp [getRaycastHeaders, fetchModelsHeaders, bodyTruthy, List.lookup]
    · simp [getRaycastHeaders, fetchModelsHeaders, bodyTruthy, hb, List.lookup]
